import Mathlib

/-!
# Verification of the gilgamesh static analyzer core

A shallow embedding, in Lean, of the data model and algorithms of the
gilgamesh 65816 ROM analyzer: ROM address translation and type discovery
(`rom.cpp`), the two-bit mode state and its delta algebra (`state.cpp`),
instruction decoding (`instruction.cpp`), the symbolic stack (`stack.cpp`),
subroutine bookkeeping (`subroutine.cpp`), and the CPU walker together with
the top-level analysis driver (`cpu.cpp`, `analysis.cpp`).

Machine integers are modelled as `Nat` with explicit masking where the C++
relies on fixed-width behavior (the 8-bit status register, the 16-bit stack
pointer, 24-bit addresses).  Maps keyed by addresses are modelled as
association lists (`std::map` iteration order is by key, so those lists are
kept sorted); unordered sets are lists deduplicated by the C++ equality.

The static opcode table (`opcodes.hpp`) is not part of the corpus; it is
modelled from the specification's description of the 65816 instruction set
for the opcodes the development exercises.
-/

namespace Gilgamesh

/-! ## ROM address translation (`rom.cpp`) -/

inductive ROMType
  | loROM
  | hiROM
  | exLoROM
  | exHiROM
  | sdd1
deriving DecidableEq

/-- `ROM::translate`: map a 24-bit SNES address to a file offset,
following the `switch` in `rom.cpp` line by line. -/
def translate : ROMType → Nat → Nat
  | .loROM, address => ((address &&& 0x7F0000) >>> 1) ||| (address &&& 0x7FFF)
  | .hiROM, address => address &&& 0x3FFFFF
  | .exLoROM, address =>
      if address &&& 0x800000 ≠ 0 then
        ((address &&& 0x7F0000) >>> 1) ||| (address &&& 0x7FFF)
      else
        (((address &&& 0x7F0000) >>> 1) ||| (address &&& 0x7FFF)) + 0x400000
  | .exHiROM, address =>
      if (address &&& 0xC00000) ≠ 0xC00000 then
        (address &&& 0x3FFFFF) ||| 0x400000
      else
        address &&& 0x3FFFFF
  | .sdd1, address =>
      if 0xC00000 ≤ address then
        address &&& 0x3FFFFF
      else
        ((address &&& 0x7F0000) >>> 1) ||| (address &&& 0x7FFF)

/-- The LoROM formula as the spec writes it. -/
def loROMFormula (a : Nat) : Nat := ((a &&& 0x7F0000) >>> 1) ||| (a &&& 0x7FFF)

/-- The HiROM formula as the spec writes it. -/
def hiROMFormula (a : Nat) : Nat := a &&& 0x3FFFFF

/-- The per-type translation formulas exactly as the spec phrases them
("the LoROM formula when bit 0x800000 of a is set", etc.), to be compared
with `translate` as embodied by the code. -/
def translateSpec : ROMType → Nat → Nat
  | .loROM, a => loROMFormula a
  | .hiROM, a => hiROMFormula a
  | .exLoROM, a =>
      if a.testBit 23 then loROMFormula a else loROMFormula a + 0x400000
  | .exHiROM, a =>
      if (a &&& 0xC00000) ≠ 0xC00000 then hiROMFormula a ||| 0x400000
      else hiROMFormula a
  | .sdd1, a => if 0xC00000 ≤ a then hiROMFormula a else loROMFormula a

/-! ## ROM image (`rom.cpp`) -/

/-- The in-memory ROM: the discovered mapping type and the raw file bytes
(total function defaulting to zero, as a byte-vector view). -/
structure ROM where
  romType : ROMType
  data : Nat → Nat

/-- `ROM::readByte`: read the byte at a SNES address through `translate`. -/
def ROM.readByte (rom : ROM) (address : Nat) : Nat :=
  rom.data (translate rom.romType address)

/-- `ROM::readWord`: little-endian 16-bit read. -/
def ROM.readWord (rom : ROM) (address : Nat) : Nat :=
  let lo := rom.readByte address
  let hi := rom.readByte (address + 1)
  (hi <<< 8) ||| lo

/-- `ROM::readAddress`: little-endian 24-bit read. -/
def ROM.readAddress (rom : ROM) (address : Nat) : Nat :=
  let lo := rom.readWord address
  let hi := rom.readByte (address + 2)
  (hi <<< 16) ||| lo

/-- `ROM::read`: `vector<u8> buffer(bytes)` pre-sizes the buffer with
`bytes` zero elements, and the loop then `push_back`s each byte read. -/
def ROM.read (rom : ROM) (address : Nat) (bytes : Nat) : List Nat :=
  (List.range bytes).foldl
    (fun buffer i => buffer ++ [rom.readByte (address + i)])
    (List.replicate bytes 0)

/-- `ROM::isRAM`. -/
def ROM.isRAM (address : Nat) : Bool :=
  address ≤ 0x001FFF || (0x7E0000 ≤ address && address ≤ 0x7FFFFF)

/-! ## ROM type discovery (`rom.cpp`) -/

/-- The raw ROM file before a type is known: `typeScore` indexes the file
data directly, without translation. -/
structure ROMFile where
  data : Nat → Nat
  size : Nat

/-- `isprint` over a byte, C locale: the printable ASCII range. -/
def isPrintByte (c : Nat) : Bool := 0x20 ≤ c && c ≤ 0x7E

/-- The loop of `ROM::typeScore`: 2 per printable byte, 1 per NUL, and an
immediate 0 for any other byte. -/
def typeScoreLoop (file : ROMFile) (titleAddress : Nat) :
    List Nat → Nat → Nat
  | [], score => score
  | i :: rest, score =>
      let c := file.data (titleAddress + i)
      if c = 0 then typeScoreLoop file titleAddress rest (score + 1)
      else if isPrintByte c then typeScoreLoop file titleAddress rest (score + 2)
      else 0

/-- `ROM::typeScore`: score the 21-byte title window at the type-specific
header offset (`Header::TITLE = 0xFFC0`, moved down a bank for LoROM). -/
def typeScore (file : ROMFile) (romType : ROMType) : Nat :=
  let titleAddress := if romType = ROMType.loROM then 0xFFC0 - 0x8000 else 0xFFC0
  typeScoreLoop file titleAddress (List.range 21) 0

/-- `ROM::discoverType`: small ROMs are LoROM by fiat, otherwise the higher
of the two scores wins, ties to LoROM. -/
def discoverType (file : ROMFile) : ROMType :=
  if file.size ≤ 0x8000 then ROMType.loROM
  else
    let lorom := typeScore file ROMType.loROM
    let hirom := typeScore file ROMType.hiROM
    if hirom > lorom then ROMType.hiROM else ROMType.loROM

/-! ## State and StateChange (`state.cpp`) -/

/-- The SNES status register, carried as the full 8-bit byte `p`.
The `m` flag is bit 5 and the `x` flag bit 4 of `p`. -/
structure State where
  p : Nat
deriving DecidableEq

/-- The `m` (accumulator size) bitfield of `p`. -/
def State.m (s : State) : Bool := s.p.testBit 5

/-- The `x` (index size) bitfield of `p`. -/
def State.x (s : State) : Bool := s.p.testBit 4

/-- `State(bool m, bool x)`: start from `p = 0` and set the two bits. -/
def State.ofMX (m x : Bool) : State :=
  ⟨(if m then 0x20 else 0) ||| (if x then 0x10 else 0)⟩

/-- `State()`: both flags set (8-bit A and X). -/
def State.initial : State := State.ofMX true true

/-- `State::sizeA`. -/
def State.sizeA (s : State) : Nat := if s.m then 1 else 2

/-- `State::sizeX`. -/
def State.sizeX (s : State) : Nat := if s.x then 1 else 2

/-- `State::set`: `p |= mask`. -/
def State.set (s : State) (mask : Nat) : State := ⟨s.p ||| mask⟩

/-- `State::reset`: `p &= ~mask` at 8 bits. -/
def State.reset (s : State) (mask : Nat) : State :=
  ⟨s.p &&& (0xFF ^^^ (mask &&& 0xFF))⟩

/-- `UnknownReason`. -/
inductive UnknownReason
  | Known
  | Unknown
  | SuspectInstruction
  | MultipleReturnStates
  | IndirectJump
  | StackManipulation
  | Recursion
  | MutableCode
deriving DecidableEq

/-- `StateChange`: the three-valued delta on the two flags, plus the
reason when the change is unknown. -/
structure StateChange where
  m : Option Bool := none
  x : Option Bool := none
  unknownReason : UnknownReason := UnknownReason.Known
deriving DecidableEq

/-- `StateChange(UnknownReason)`. -/
def StateChange.ofReason (reason : UnknownReason) : StateChange :=
  { unknownReason := reason }

/-- `StateChange::set`: decode the mask through a `State` and change the
flags whose bit is on to `Some(true)`. -/
def StateChange.set (sc : StateChange) (mask : Nat) : StateChange :=
  let change : State := ⟨mask⟩
  { sc with
    m := if change.m then some true else sc.m
    x := if change.x then some true else sc.x }

/-- `StateChange::reset`: analogous with `Some(false)`. -/
def StateChange.reset (sc : StateChange) (mask : Nat) : StateChange :=
  let change : State := ⟨mask⟩
  { sc with
    m := if change.m then some false else sc.m
    x := if change.x then some false else sc.x }

/-- `StateChange::unknown`. -/
def StateChange.unknown (sc : StateChange) : Bool :=
  sc.unknownReason ≠ UnknownReason.Known

/-- `StateChange::isEmpty`. -/
def StateChange.isEmptyChange (sc : StateChange) : Bool :=
  !sc.unknown && sc.m.isNone && sc.x.isNone

/-- `StateChange::applyInference`: clear each flag delta that is present
and equal to the corresponding inference component. -/
def StateChange.applyInference (sc inference : StateChange) : StateChange :=
  { sc with
    m := if sc.m.isSome ∧ sc.m = inference.m then none else sc.m
    x := if sc.x.isSome ∧ sc.x = inference.x then none else sc.x }

/-- `StateChange::simplify`: clear each flag delta that matches the
current state (C++ compares `bool == optional<bool>`). -/
def StateChange.simplify (sc : StateChange) (state : State) : StateChange :=
  { sc with
    m := if sc.m = some state.m then none else sc.m
    x := if sc.x = some state.x then none else sc.x }

/-- `StateChange::operator==` as written in `state.cpp`: it compares the two
flag deltas and nothing else. -/
def StateChange.beqCpp (a b : StateChange) : Bool :=
  a.m == b.m && a.x == b.x

/-- The pair fed to `hash_value`'s two `boost::hash_combine` calls: only the
two flag deltas enter the hash. -/
def StateChange.hashInput (sc : StateChange) : Option Bool × Option Bool :=
  (sc.m, sc.x)

/-! ## Opcodes and instruction decoding (`instruction.cpp`, `opcodes.hpp`) -/

/-- The operations the development needs; every opcode the tables map to
none of these is an ordinary operation (`Op.OTHER` here), which
`Instruction::type` classifies as `InstructionType::Other`. -/
inductive Op
  | JSR | JSL
  | JMP | JML | BRA | BRL
  | RTS | RTL | RTI
  | BRK
  | SEP | REP
  | PLA | PLB | PLD | PLP | PLX | PLY
  | PEA | PEI | PER | PHA | PHB | PHD | PHK | PHP | PHX | PHY
  | BCC | BCS | BEQ | BMI | BNE | BPL | BVC | BVS
  | LDA | LDX
  | OTHER
deriving DecidableEq

/-- The addressing modes the development needs; modes that never resolve an
absolute argument and never carry a state-dependent size are lumped into
`otherMode`. -/
inductive AddressMode
  | implied
  | immediateM
  | immediateX
  | immediate8
  | absolute
  | absoluteLong
  | relative
  | relativeLong
  | absoluteIndirect
  | otherMode
deriving DecidableEq

/-- Modelled from the spec: the 256-entry static table mapping each opcode
byte to (operation, addressing mode).  `opcodes.hpp` is not in the corpus;
the entries below are the 65816 encodings of the opcodes the claims and
scenarios exercise, and every other byte decodes to an ordinary operation. -/
def opcodeTable (opcode : Nat) : Op × AddressMode :=
  if opcode = 0x00 then (Op.BRK, AddressMode.immediate8)
  else if opcode = 0x08 then (Op.PHP, AddressMode.implied)
  else if opcode = 0x20 then (Op.JSR, AddressMode.absolute)
  else if opcode = 0x22 then (Op.JSL, AddressMode.absoluteLong)
  else if opcode = 0x28 then (Op.PLP, AddressMode.implied)
  else if opcode = 0x40 then (Op.RTI, AddressMode.implied)
  else if opcode = 0x48 then (Op.PHA, AddressMode.implied)
  else if opcode = 0x4C then (Op.JMP, AddressMode.absolute)
  else if opcode = 0x60 then (Op.RTS, AddressMode.implied)
  else if opcode = 0x6B then (Op.RTL, AddressMode.implied)
  else if opcode = 0x6C then (Op.JMP, AddressMode.absoluteIndirect)
  else if opcode = 0xA2 then (Op.LDX, AddressMode.immediateX)
  else if opcode = 0xA9 then (Op.LDA, AddressMode.immediateM)
  else if opcode = 0xC2 then (Op.REP, AddressMode.immediate8)
  else if opcode = 0xD0 then (Op.BNE, AddressMode.relative)
  else if opcode = 0xE2 then (Op.SEP, AddressMode.immediate8)
  else if opcode = 0xEA then (Op.OTHER, AddressMode.implied)
  else (Op.OTHER, AddressMode.implied)

/-- Modelled from the spec: `ARGUMENT_SIZES`, the per-mode argument size
table; the two immediate modes whose size depends on the entry state map to
no static size. -/
def argumentSizes : AddressMode → Option Nat
  | .implied => some 0
  | .immediateM => none
  | .immediateX => none
  | .immediate8 => some 1
  | .absolute => some 2
  | .absoluteLong => some 3
  | .relative => some 1
  | .relativeLong => some 2
  | .absoluteIndirect => some 2
  | .otherMode => some 0

/-- `InstructionType`. -/
inductive InstructionType
  | Branch
  | Call
  | Interrupt
  | Other
  | Jump
  | Pop
  | Push
  | Return
  | SepRep
deriving DecidableEq

/-- A decoded instruction: address, owning subroutine, opcode byte, the raw
3-byte trailing argument, and the entry state.  Identity is structural,
matching the C++ `(pc, subroutinePC, state)` hash/equality for records
created from the same ROM bytes. -/
structure Instruction where
  pc : Nat
  subroutinePC : Nat
  opcode : Nat
  rawArgument : Nat
  state : State
deriving DecidableEq

/-- `Instruction::operation`. -/
def Instruction.operation (i : Instruction) : Op := (opcodeTable i.opcode).1

/-- `Instruction::addressMode`. -/
def Instruction.addressMode (i : Instruction) : AddressMode :=
  (opcodeTable i.opcode).2

/-- `Instruction::type`: the switch from `instruction.cpp`. -/
def Instruction.type (i : Instruction) : InstructionType :=
  match i.operation with
  | .JSR | .JSL => .Call
  | .JMP | .JML | .BRA | .BRL => .Jump
  | .RTS | .RTL | .RTI => .Return
  | .BRK => .Interrupt
  | .SEP | .REP => .SepRep
  | .PLA | .PLB | .PLD | .PLP | .PLX | .PLY => .Pop
  | .PEA | .PEI | .PER | .PHA | .PHB | .PHD | .PHK | .PHP | .PHX | .PHY => .Push
  | .BCC | .BCS | .BEQ | .BMI | .BNE | .BPL | .BVC | .BVS => .Branch
  | _ => .Other

/-- `Instruction::isControl`. -/
def Instruction.isControl (i : Instruction) : Bool :=
  match i.type with
  | .Branch | .Call | .Jump | .Return | .Interrupt => true
  | _ => false

/-- `Instruction::isSepRep`. -/
def Instruction.isSepRep (i : Instruction) : Bool :=
  i.type = InstructionType.SepRep

/-- `Instruction::argumentSize`: the static per-mode size, or the
state-dependent size for the two immediate modes. -/
def Instruction.argumentSize (i : Instruction) : Nat :=
  match argumentSizes i.addressMode with
  | some size => size
  | none =>
      match i.addressMode with
      | .immediateM => i.state.sizeA
      | .immediateX => i.state.sizeX
      | _ => 0

/-- `Instruction::size`. -/
def Instruction.size (i : Instruction) : Nat := i.argumentSize + 1

/-- `Instruction::argument`: the raw argument masked to its size. -/
def Instruction.argument (i : Instruction) : Option Nat :=
  match i.argumentSize with
  | 0 => none
  | 1 => some (i.rawArgument &&& 0xFF)
  | 2 => some (i.rawArgument &&& 0xFFFF)
  | 3 => some (i.rawArgument &&& 0xFFFFFF)
  | _ => none

/-- Sign extension of a byte, as the C++ `(i8)` cast. -/
def signExtend8 (a : Nat) : Int := if a < 0x80 then (a : Int) else (a : Int) - 0x100

/-- Sign extension of a word, as the C++ `(i16)` cast. -/
def signExtend16 (a : Nat) : Int :=
  if a < 0x8000 then (a : Int) else (a : Int) - 0x10000

/-- `Instruction::absoluteArgument`: resolve the branch/jump target where
possible.  Relative arithmetic happens on 32-bit unsigned values in the
C++, hence the mod `2^32`. -/
def Instruction.absoluteArgument (i : Instruction) : Option Nat :=
  match i.argument with
  | none => none
  | some arg =>
      match i.addressMode with
      | .immediateM | .immediateX | .immediate8 | .absoluteLong => some arg
      | .absolute =>
          if i.isControl then some ((i.pc &&& 0xFF0000) ||| arg) else none
      | .relative =>
          some ((((i.pc : Int) + i.size + signExtend8 arg) % (2 ^ 32)).toNat)
      | .relativeLong =>
          some ((((i.pc : Int) + i.size + signExtend16 arg) % (2 ^ 32)).toNat)
      | _ => none

/-! ## Symbolic stack (`stack.cpp`) -/

/-- `StackData`: unknown byte, known byte, or a `PHP` snapshot. -/
inductive StackData
  | unknownData
  | byteData (b : Nat)
  | savedState (state : State) (stateChange : StateChange)
deriving DecidableEq

/-- `StackEntry`: the producing instruction (null when unknown) and the
payload. -/
structure StackEntry where
  instruction : Option Instruction := none
  data : StackData := StackData.unknownData

/-- The stack: RAM as a total map from 16-bit pointers to entries (missing
slots read as empty entries), plus the current pointer. -/
structure Stack where
  mem : Nat → StackEntry := fun _ => {}
  pointer : Nat := 0x100

/-- 16-bit decrement, as `pointer--` on a `u16`. -/
def decPointer (p : Nat) : Nat := (p + 0xFFFF) % 0x10000

/-- 16-bit increment, as `++pointer` on a `u16`. -/
def incPointer (p : Nat) : Nat := (p + 1) % 0x10000

/-- `memory[pointer--] = entry`. -/
def Stack.writeTop (s : Stack) (entry : StackEntry) : Stack :=
  { mem := fun a => if a = s.pointer then entry else s.mem a
    pointer := decPointer s.pointer }

/-- The loop of `Stack::pushValue`, running over the loop-variable sequence
`size-1, ..., 0`: each iteration stores the `i`-th byte of the value (or an
unknown) and decrements the pointer. -/
def Stack.pushLoop (instr : Option Instruction) (data : Option Nat) :
    List Nat → Stack → Stack
  | [], s => s
  | i :: rest, s =>
      let stackData :=
        match data with
        | some d => StackData.byteData ((d >>> (i * 8)) &&& 0xFF)
        | none => StackData.unknownData
      Stack.pushLoop instr data rest (s.writeTop ⟨instr, stackData⟩)

/-- `Stack::pushValue`: write `size` bytes high-to-low. -/
def Stack.pushValue (s : Stack) (size : Nat) (data : Option Nat)
    (instr : Option Instruction) : Stack :=
  Stack.pushLoop instr data (List.range size).reverse s

/-- `Stack::pushState`: one entry holding the `(state, stateChange)`
snapshot. -/
def Stack.pushState (s : Stack) (state : State) (stateChange : StateChange)
    (instr : Option Instruction) : Stack :=
  s.writeTop ⟨instr, StackData.savedState state stateChange⟩

/-- `Stack::pushOne`. -/
def Stack.pushOne (s : Stack) (data : Option Nat)
    (instr : Option Instruction) : Stack :=
  s.pushValue 1 data instr

/-- `Stack::popOne`: pre-increment the pointer and read that slot. -/
def Stack.popOne (s : Stack) : StackEntry × Stack :=
  let p := incPointer s.pointer
  (s.mem p, { s with pointer := p })

/-- `Stack::pop`: `size` successive `popOne`s, collected in pop order. -/
def Stack.pop (s : Stack) : Nat → List StackEntry × Stack
  | 0 => ([], s)
  | size + 1 =>
      let (entry, s1) := s.popOne
      let (entries, s2) := s1.pop size
      (entry :: entries, s2)

/-! ## State-change sets and subroutines (`subroutine.cpp`) -/

/-- Insertion into a `StateChangeSet`: the C++ `unordered_set` keyed by
`StateChange::operator==`, so a change equal (in that sense) to a present
one is not added. -/
def scSetInsert (s : List StateChange) (sc : StateChange) : List StateChange :=
  if s.any (fun old => StateChange.beqCpp old sc) then s else s ++ [sc]

/-- Set union as `unordered_set::merge`: the source's elements are inserted
one by one, duplicates staying behind. -/
def scSetMerge (dst src : List StateChange) : List StateChange :=
  src.foldl scSetInsert dst

/-- Insert-or-assign into a PC-keyed `std::map`, keeping the list sorted by
key as map iteration order is. -/
def mapInsert {α : Type} (key : Nat) (value : α) :
    List (Nat × α) → List (Nat × α)
  | [] => [(key, value)]
  | (k, v) :: rest =>
      if key < k then (key, value) :: (k, v) :: rest
      else if key = k then (key, value) :: rest
      else (k, v) :: mapInsert key value rest

/-- Lookup in a PC-keyed association list. -/
def mapFind {α : Type} (key : Nat) : List (Nat × α) → Option α
  | [] => none
  | (k, v) :: rest => if k = key then some v else mapFind key rest

/-- A discovered subroutine: its entry PC, its instructions in PC order,
and the two state-change maps keyed by the PC of the recording return.
(Display labels are omitted; nothing in the analysis reads them back.) -/
structure Subroutine where
  pc : Nat
  instructions : List (Nat × Instruction) := []
  knownStateChanges : List (Nat × StateChange) := []
  unknownStateChanges : List (Nat × StateChange) := []
  isEntryPoint : Bool := false
deriving DecidableEq

/-- `Subroutine::addInstruction`: record by the instruction's PC. -/
def Subroutine.addInstruction (sub : Subroutine) (i : Instruction) : Subroutine :=
  { sub with instructions := mapInsert i.pc i sub.instructions }

/-- `Subroutine::addStateChange`: route on `StateChange::unknown`. -/
def Subroutine.addStateChange (sub : Subroutine) (pc : Nat)
    (sc : StateChange) : Subroutine :=
  if sc.unknown then
    { sub with unknownStateChanges := mapInsert pc sc sub.unknownStateChanges }
  else
    { sub with knownStateChanges := mapInsert pc sc sub.knownStateChanges }

/-- `Subroutine::simplifiedStateChanges`: simplify every known delta
against the state and collect the results into a set. -/
def Subroutine.simplifiedStateChanges (sub : Subroutine) (state : State) :
    List StateChange :=
  sub.knownStateChanges.foldl
    (fun s entry => scSetInsert s (entry.2.simplify state)) []

/-- The scan of `Subroutine::savesStateInIncipit` over the PC-ordered
instructions: `PHP` answers true, a SEP/REP or control instruction answers
false, anything else is skipped. -/
def incipitScan : List (Nat × Instruction) → Bool
  | [] => false
  | (_, i) :: rest =>
      if i.operation = Op.PHP then true
      else if i.isSepRep || i.isControl then false
      else incipitScan rest

/-- `Subroutine::savesStateInIncipit`. -/
def Subroutine.savesStateInIncipit (sub : Subroutine) : Bool :=
  incipitScan sub.instructions

/-- `Subroutine::isUnknownBecauseOf`. -/
def Subroutine.isUnknownBecauseOf (sub : Subroutine) (reason : UnknownReason) :
    Bool :=
  sub.unknownStateChanges.any (fun entry => entry.2.unknownReason = reason)

/-- `Subroutine::isResponsibleForUnknown`. -/
def Subroutine.isResponsibleForUnknown (sub : Subroutine) : Bool :=
  sub.unknownStateChanges.any
    (fun entry => entry.2.unknownReason ≠ UnknownReason.Unknown)

/-! ## Analysis bookkeeping (`analysis.cpp`) -/

inductive AssertionType
  | instructionAssertion
  | subroutineAssertion
deriving DecidableEq

/-- A user assertion: scope and asserted state change. -/
structure Assertion where
  type : AssertionType
  stateChange : StateChange
deriving DecidableEq

inductive JumpTableStatus
  | unknownStatus
  | partialStatus
  | completeStatus
deriving DecidableEq

/-- A jump table: status and the map from table index to target. -/
structure JumpTable where
  status : JumpTableStatus
  targets : List (Nat × Nat) := []
deriving DecidableEq

/-- An entry point: PC and initial state (hashed by PC alone; the display
label is omitted). -/
structure EntryPoint where
  pc : Nat
  state : State
deriving DecidableEq

/-- Set insertion for entry points: hashed and compared by `pc` alone, so a
second add at the same PC is a no-op. -/
def entryPointsInsert (l : List EntryPoint) (e : EntryPoint) : List EntryPoint :=
  if l.any (fun old => old.pc = e.pc) then l else l ++ [e]

/-- The analysis: the ROM and the derived and user data.  `instructions` is
the per-PC instruction index; `localLabels` records the
`generateLocalLabels` output as (target, subroutine) pairs. -/
structure Analysis where
  rom : ROM
  instructions : List (Nat × List Instruction) := []
  subroutines : List (Nat × Subroutine) := []
  references : List (Nat × List (Nat × Nat)) := []
  entryPoints : List EntryPoint := []
  assertions : List ((Nat × Nat) × Assertion) := []
  jumpTables : List (Nat × JumpTable) := []
  localLabels : List (Nat × Nat) := []

/-- Update the subroutine stored at `pc`, if present. -/
def Analysis.modifySubroutine (an : Analysis) (pc : Nat)
    (f : Subroutine → Subroutine) : Analysis :=
  { an with
    subroutines := an.subroutines.map
      (fun entry => if entry.1 = pc then (entry.1, f entry.2) else entry) }

/-- `Analysis::addSubroutine`: `try_emplace`, an idempotent insert. -/
def Analysis.addSubroutine (an : Analysis) (pc : Nat)
    (isEntryPoint : Bool := false) : Analysis :=
  if (mapFind pc an.subroutines).isSome then an
  else
    { an with
      subroutines :=
        mapInsert pc { pc := pc, isEntryPoint := isEntryPoint } an.subroutines }

/-- `Analysis::addInstruction`: insert into the per-PC set keyed by the
instruction identity `(pc, subroutinePC, state)`; if new, also link it into
its subroutine and return it, otherwise return null. -/
def Analysis.addInstruction (an : Analysis) (pc subroutinePC opcode argument : Nat)
    (state : State) : Option Instruction × Analysis :=
  let instructionSet := (mapFind pc an.instructions).getD []
  if instructionSet.any
      (fun i => i.pc = pc ∧ i.subroutinePC = subroutinePC ∧ i.state = state) then
    (none, an)
  else
    let instruction : Instruction :=
      { pc := pc, subroutinePC := subroutinePC, opcode := opcode,
        rawArgument := argument, state := state }
    let an1 :=
      { an with
        instructions := mapInsert pc (instructionSet ++ [instruction]) an.instructions }
    (some instruction,
      an1.modifySubroutine subroutinePC (fun sub => sub.addInstruction instruction))

/-- `Analysis::addReference`: grow the per-source reference set, deduplicated
by `(target, subroutinePC)`. -/
def Analysis.addReference (an : Analysis) (source target subroutinePC : Nat) :
    Analysis :=
  let referenceSet := (mapFind source an.references).getD []
  let referenceSet :=
    if referenceSet.any (fun r => r = (target, subroutinePC)) then referenceSet
    else referenceSet ++ [(target, subroutinePC)]
  { an with references := mapInsert source referenceSet an.references }

/-- `Analysis::getAssertion`: keyed by `(pc, subroutinePC)`. -/
def Analysis.getAssertion (an : Analysis) (pc subroutinePC : Nat) :
    Option Assertion :=
  mapFind 0 (an.assertions.filterMap
    (fun entry => if entry.1 = (pc, subroutinePC) then some (0, entry.2) else none))

/-- `Analysis::generateLocalLabels`: every reference target that is not a
subroutine entry gets a local label. -/
def Analysis.generateLocalLabels (an : Analysis) : Analysis :=
  { an with
    localLabels :=
      an.references.foldl
        (fun acc entry =>
          entry.2.foldl
            (fun acc tp =>
              if (mapFind tp.1 an.subroutines).isSome then acc else acc ++ [tp])
            acc)
        [] }

/-! ## The CPU walker (`cpu.cpp`) -/

/-- A walker instance: one control-flow path. -/
structure CPU where
  pc : Nat
  subroutinePC : Nat
  state : State
  stateChange : StateChange := {}
  stateInference : StateChange := {}
  stack : Stack := {}
  stop : Bool := false

/-- Bitfield write `state.m = b` (bit 5 of `p`). -/
def State.assignM (s : State) (b : Bool) : State :=
  ⟨if b then s.p ||| 0x20 else s.p &&& (0xFF ^^^ 0x20)⟩

/-- Bitfield write `state.x = b` (bit 4 of `p`). -/
def State.assignX (s : State) (b : Bool) : State :=
  ⟨if b then s.p ||| 0x10 else s.p &&& (0xFF ^^^ 0x10)⟩

/-- `CPU::applyStateChange`: apply each present delta to the local state
and to the accumulated state change. -/
def CPU.applyStateChange (cpu : CPU) (sc : StateChange) : CPU :=
  let cpu :=
    match sc.m with
    | some m =>
        { cpu with
          state := cpu.state.assignM m
          stateChange := { cpu.stateChange with m := some m } }
    | none => cpu
  match sc.x with
  | some x =>
      { cpu with
        state := cpu.state.assignX x
        stateChange := { cpu.stateChange with x := some x } }
  | none => cpu

/-- `CPU::deriveStateInference`: an immediate-with-accumulator-width read
before any `m` mutation pins the entry `m`; the same for `x`. -/
def CPU.deriveStateInference (cpu : CPU) (i : Instruction) : CPU :=
  let cpu :=
    if i.addressMode = AddressMode.immediateM ∧ cpu.stateChange.m.isNone then
      { cpu with stateInference := { cpu.stateInference with m := some cpu.state.m } }
    else cpu
  if i.addressMode = AddressMode.immediateX ∧ cpu.stateChange.x.isNone then
    { cpu with stateInference := { cpu.stateInference with x := some cpu.state.x } }
  else cpu

/-- Record a state change in the walker's current subroutine. -/
def recordStateChange (an : Analysis) (subroutinePC pc : Nat)
    (sc : StateChange) : Analysis :=
  an.modifySubroutine subroutinePC (fun sub => sub.addStateChange pc sc)

/-- `CPU::unknownStateChange`: consult the assertion at `(pc, subroutine)`;
with none, record the reason and stop; an `Instruction` assertion applies
its delta and continues; a `Subroutine` assertion records its delta and
stops. -/
def CPU.unknownStateChange (cpu : CPU) (an : Analysis) (pc : Nat)
    (reason : UnknownReason) : CPU × Analysis :=
  match an.getAssertion pc cpu.subroutinePC with
  | none =>
      ({ cpu with stop := true },
        recordStateChange an cpu.subroutinePC pc (StateChange.ofReason reason))
  | some assertion =>
      match assertion.type with
      | .instructionAssertion => (cpu.applyStateChange assertion.stateChange, an)
      | .subroutineAssertion =>
          ({ cpu with stop := true },
            recordStateChange an cpu.subroutinePC pc assertion.stateChange)

/-- `CPU::standardRet`: record the accumulated state change at the return
instruction's PC and stop. -/
def CPU.standardRet (cpu : CPU) (an : Analysis) (i : Instruction) :
    CPU × Analysis :=
  ({ cpu with stop := true },
    recordStateChange an cpu.subroutinePC i.pc cpu.stateChange)

/-- `CPU::checkReturnManipulation`: the loop over the popped entries, with
its early `true` returns for a null producer or a producer of the wrong
call kind. -/
def checkReturnManipulation (i : Instruction) : List StackEntry → Bool
  | [] => false
  | entry :: rest =>
      match entry.instruction with
      | none => true
      | some caller =>
          if i.operation = Op.RTS ∧ caller.operation ≠ Op.JSR then true
          else if i.operation = Op.RTL ∧ caller.operation ≠ Op.JSL then true
          else checkReturnManipulation i rest

/-- `CPU::ret`: `RTI` returns unconditionally; `RTS`/`RTL` pop the return
address and raise `StackManipulation` when it was tampered with. -/
def CPU.ret (cpu : CPU) (an : Analysis) (i : Instruction) : CPU × Analysis :=
  if i.operation = Op.RTI then cpu.standardRet an i
  else
    let retSize := if i.operation = Op.RTS then 2 else 3
    let (stackEntries, stack1) := cpu.stack.pop retSize
    let cpu1 := { cpu with stack := stack1 }
    if checkReturnManipulation i stackEntries = false then cpu1.standardRet an i
    else cpu1.unknownStateChange an i.pc UnknownReason.StackManipulation

/-- The state effect of `CPU::sepRep` for operand byte `arg`: mutate state
and state change, then elide no-op changes against the inference. -/
def sepRepApply (op : Op) (arg : Nat) (state : State)
    (stateChange stateInference : StateChange) : State × StateChange :=
  let (state1, stateChange1) :=
    match op with
    | .SEP => (state.set arg, stateChange.set arg)
    | .REP => (state.reset arg, stateChange.reset arg)
    | _ => (state, stateChange)
  (state1, stateChange1.applyInference stateInference)

/-- `CPU::sepRep`. -/
def CPU.sepRep (cpu : CPU) (i : Instruction) : CPU :=
  let arg := i.absoluteArgument.getD 0
  let (state1, stateChange1) :=
    sepRepApply i.operation arg cpu.state cpu.stateChange cpu.stateInference
  { cpu with state := state1, stateChange := stateChange1 }

/-- `CPU::push`. -/
def CPU.push (cpu : CPU) (i : Instruction) : CPU :=
  match i.operation with
  | .PHP =>
      { cpu with stack := cpu.stack.pushState cpu.state cpu.stateChange (some i) }
  | .PHA => { cpu with stack := cpu.stack.pushValue cpu.state.sizeA none (some i) }
  | .PHX | .PHY =>
      { cpu with stack := cpu.stack.pushValue cpu.state.sizeX none (some i) }
  | .PHB | .PHK => { cpu with stack := cpu.stack.pushOne none (some i) }
  | .PHD | .PEA | .PER | .PEI =>
      { cpu with stack := cpu.stack.pushValue 2 none (some i) }
  | _ => cpu

/-- `CPU::pop`.  (A `PHP` producer always carries a state snapshot; on the
impossible other payloads the state is left as is.) -/
def CPU.popInstr (cpu : CPU) (an : Analysis) (i : Instruction) : CPU × Analysis :=
  match i.operation with
  | .PLP =>
      let (entry, stack1) := cpu.stack.popOne
      let cpu1 := { cpu with stack := stack1 }
      match entry.instruction with
      | some producer =>
          if producer.operation = Op.PHP then
            match entry.data with
            | .savedState st sc => ({ cpu1 with state := st, stateChange := sc }, an)
            | _ => (cpu1, an)
          else cpu1.unknownStateChange an i.pc UnknownReason.StackManipulation
      | none => cpu1.unknownStateChange an i.pc UnknownReason.StackManipulation
  | .PLA => ({ cpu with stack := (cpu.stack.pop cpu.state.sizeA).2 }, an)
  | .PLX | .PLY => ({ cpu with stack := (cpu.stack.pop cpu.state.sizeX).2 }, an)
  | .PLB => ({ cpu with stack := cpu.stack.popOne.2 }, an)
  | .PLD => ({ cpu with stack := (cpu.stack.pop 2).2 }, an)
  | _ => (cpu, an)

/-- Set insertion for target sets (`unordered_set<InstructionPC>`). -/
def natSetInsert (l : List Nat) (n : Nat) : List Nat :=
  if l.contains n then l else l ++ [n]

/-- `CPU::computeJumpTargets`: a resolvable argument is the singleton
target set; otherwise consult the jump tables, registering an `Unknown`
placeholder (and returning no targets) when the site has no usable one. -/
def CPU.computeJumpTargets (_cpu : CPU) (an : Analysis) (i : Instruction) :
    Option (List Nat) × Analysis :=
  match i.absoluteArgument with
  | some arg => (some (natSetInsert [] arg), an)
  | none =>
      match mapFind i.pc an.jumpTables with
      | none =>
          (none,
            { an with
              jumpTables :=
                mapInsert i.pc { status := JumpTableStatus.unknownStatus } an.jumpTables })
      | some jumpTable =>
          if jumpTable.status = JumpTableStatus.unknownStatus then (none, an)
          else
            (some (jumpTable.targets.foldl (fun s tp => natSetInsert s tp.2) []), an)

/-! ## Propagating callee state (`cpu.cpp`) -/

/-- The three ways `CPU::propagateSubroutineState` can end. -/
inductive PropagateOutcome
  | raiseUnknown
  | raiseMultipleReturnStates
  | applyChange (sc : StateChange)
deriving DecidableEq

/-- The loop of `CPU::propagateSubroutineState`: walk the callees, bailing
out at one with unknown deltas, merging the simplified known deltas of the
others; afterwards a single collected delta is applied, anything else is
ambiguous. -/
def propagateLoop (state : State) (subs : Nat → Subroutine) :
    List Nat → List StateChange → PropagateOutcome
  | [], stateChanges =>
      match stateChanges with
      | [sc] => .applyChange sc
      | _ => .raiseMultipleReturnStates
  | target :: rest, stateChanges =>
      let sub := subs target
      if !sub.unknownStateChanges.isEmpty then .raiseUnknown
      else
        propagateLoop state subs rest
          (scSetMerge stateChanges (sub.simplifiedStateChanges state))

/-- `CPU::propagateSubroutineState`, as a decision on the caller state and
the callee set. -/
def propagateSubroutineState (state : State) (subs : Nat → Subroutine)
    (targets : List Nat) : PropagateOutcome :=
  propagateLoop state subs targets []

/-- Look a subroutine up in the analysis (`subroutines.at`; all targets are
registered before this is consulted). -/
def Analysis.subroutineAt (an : Analysis) (pc : Nat) : Subroutine :=
  (mapFind pc an.subroutines).getD { pc := pc }

/-- The walker step around `propagateSubroutineState`: raise or apply. -/
def CPU.propagateStep (cpu : CPU) (an : Analysis) (pc : Nat)
    (targets : List Nat) : CPU × Analysis :=
  match propagateSubroutineState cpu.state an.subroutineAt targets with
  | .raiseUnknown => cpu.unknownStateChange an pc UnknownReason.Unknown
  | .raiseMultipleReturnStates =>
      cpu.unknownStateChange an pc UnknownReason.MultipleReturnStates
  | .applyChange sc => (cpu.applyStateChange sc, an)

/-! ## The main loop (`CPU::run` / `CPU::step` / `CPU::execute`)

The C++ recursion (spawned walker copies run to completion before their
parent continues) is made total with a fuel parameter; every recursive
call, including each spawned copy and each element of a target list,
consumes one unit.  `none` means the fuel ran out, never a verdict. -/

mutual

/-- `CPU::run` / `CPU::step` / `CPU::execute`: fetch at `pc` (RAM is
`MutableCode`), insert the decoded instruction (a duplicate stops the
path), advance, derive inferences, and dispatch on the instruction type. -/
def cpuRun : Nat → CPU → Analysis → Option (CPU × Analysis)
  | 0, _, _ => none
  | fuel + 1, cpu, an =>
      if cpu.stop then some (cpu, an)
      else
        if ROM.isRAM cpu.pc then
          let (cpu1, an1) := cpu.unknownStateChange an cpu.pc UnknownReason.MutableCode
          cpuRun fuel cpu1 an1
        else
          let opcode := an.rom.readByte cpu.pc
          let argument := an.rom.readAddress (cpu.pc + 1)
          match an.addInstruction cpu.pc cpu.subroutinePC opcode argument cpu.state with
          | (none, an1) => cpuRun fuel { cpu with stop := true } an1
          | (some instruction, an1) =>
              let cpu1 := { cpu with pc := cpu.pc + instruction.size }
              let cpu2 := cpu1.deriveStateInference instruction
              match instruction.type with
              | .Branch =>
                  match cpuRun fuel cpu2 an1 with
                  | none => none
                  | some (_, an2) =>
                      let target := instruction.absoluteArgument.getD 0
                      let an3 := an2.addReference instruction.pc target cpu2.subroutinePC
                      cpuRun fuel { cpu2 with pc := target } an3
              | .Call =>
                  match cpu2.computeJumpTargets an1 instruction with
                  | (none, an2) =>
                      let (cpu3, an3) :=
                        cpu2.unknownStateChange an2 instruction.pc
                          UnknownReason.IndirectJump
                      cpuRun fuel cpu3 an3
                  | (some targets, an2) =>
                      match callTargetsRun fuel cpu2 an2 instruction targets with
                      | none => none
                      | some an3 =>
                          let (cpu3, an4) := cpu2.propagateStep an3 instruction.pc targets
                          cpuRun fuel cpu3 an4
              | .Interrupt =>
                  let (cpu3, an2) :=
                    cpu2.unknownStateChange an1 instruction.pc
                      UnknownReason.SuspectInstruction
                  cpuRun fuel cpu3 an2
              | .Jump =>
                  match cpu2.computeJumpTargets an1 instruction with
                  | (none, an2) =>
                      let (cpu3, an3) :=
                        cpu2.unknownStateChange an2 instruction.pc
                          UnknownReason.IndirectJump
                      cpuRun fuel cpu3 an3
                  | (some targets, an2) =>
                      match jumpTargetsRun fuel cpu2 an2 instruction targets with
                      | none => none
                      | some an3 => cpuRun fuel { cpu2 with stop := true } an3
              | .Return =>
                  let (cpu3, an2) := cpu2.ret an1 instruction
                  cpuRun fuel cpu3 an2
              | .SepRep => cpuRun fuel (cpu2.sepRep instruction) an1
              | .Pop =>
                  let (cpu3, an2) := cpu2.popInstr an1 instruction
                  cpuRun fuel cpu3 an2
              | .Push => cpuRun fuel (cpu2.push instruction) an1
              | .Other => cpuRun fuel cpu2 an1

/-- The per-target loop of `CPU::call`: register the callee subroutine and
the reference, run a copy with a fresh state change and the pushed return
address, and keep only its effect on the analysis. -/
def callTargetsRun : Nat → CPU → Analysis → Instruction → List Nat → Option Analysis
  | 0, _, _, _, _ => none
  | _ + 1, _, an, _, [] => some an
  | fuel + 1, cpu, an, instruction, target :: rest =>
      let retSize := if instruction.operation = Op.JSR then 2 else 3
      let copy :=
        { cpu with
          pc := target
          subroutinePC := target
          stateChange := {}
          stack := cpu.stack.pushValue retSize (some instruction.pc) (some instruction) }
      let an1 := an.addSubroutine target
      let an2 := an1.addReference instruction.pc target cpu.subroutinePC
      match cpuRun fuel copy an2 with
      | none => none
      | some (_, an3) => callTargetsRun fuel cpu an3 instruction rest

/-- The per-target loop of `CPU::jump`: add the reference and run a copy at
the target with the current state and state change. -/
def jumpTargetsRun : Nat → CPU → Analysis → Instruction → List Nat → Option Analysis
  | 0, _, _, _, _ => none
  | _ + 1, _, an, _, [] => some an
  | fuel + 1, cpu, an, instruction, target :: rest =>
      let an1 := an.addReference instruction.pc target cpu.subroutinePC
      match cpuRun fuel { cpu with pc := target } an1 with
      | none => none
      | some (_, an2) => jumpTargetsRun fuel cpu an2 instruction rest

end

/-! ## The analysis driver (`analysis.cpp`) -/

/-- The entry-point loop of `Analysis::run`: register the entry subroutine
and walk from it. -/
def runEntryPoints (fuel : Nat) : Analysis → List EntryPoint → Option Analysis
  | an, [] => some an
  | an, e :: rest =>
      let an1 := an.addSubroutine e.pc true
      match cpuRun fuel { pc := e.pc, subroutinePC := e.pc, state := e.state } an1 with
      | none => none
      | some (_, an2) => runEntryPoints fuel an2 rest

/-- `Analysis::run`: clear the derived data, walk every entry point, then
generate local labels. -/
def Analysis.run (an : Analysis) (fuel : Nat) : Option Analysis :=
  let cleared := { an with instructions := [], subroutines := [], references := [] }
  (runEntryPoints fuel cleared an.entryPoints).map Analysis.generateLocalLabels

/-- `ROM::translateHeader`. -/
def ROM.translateHeader (rom : ROM) (address : Nat) : Nat :=
  if rom.romType = ROMType.exLoROM ∨ rom.romType = ROMType.sdd1 then
    0x800000 + address
  else address

/-- `ROM::resetVector` (header word at 0xFFFC). -/
def ROM.resetVector (rom : ROM) : Nat := rom.readWord (rom.translateHeader 0xFFFC)

/-- `ROM::nmiVector` (header word at 0xFFEA). -/
def ROM.nmiVector (rom : ROM) : Nat := rom.readWord (rom.translateHeader 0xFFEA)

/-- `Analysis::reset`: blank analysis with the two vector entry points
(the entry-point set is hashed by PC, so coinciding vectors collapse). -/
def Analysis.ofROM (rom : ROM) : Analysis :=
  { rom := rom
    entryPoints :=
      entryPointsInsert
        (entryPointsInsert [] { pc := rom.resetVector, state := State.initial })
        { pc := rom.nmiVector, state := State.initial } }

/-! ## The E1 scenario: a reset entry point that is a single self-loop jump

A LoROM image whose reset and NMI vectors point at `$8000`, where the only
instruction is `JMP $8000` (`4C 00 80`).  File offsets: `translate`(LoROM)
sends SNES `$8000..` to file offset 0 and the header vectors at `$FFEA` /
`$FFFC` to `0x7FEA` / `0x7FFC`. -/
def e1Data : Nat → Nat := fun a =>
  if a = 0 then 0x4C
  else if a = 1 then 0x00
  else if a = 2 then 0x80
  else if a = 0x7FEA then 0x00
  else if a = 0x7FEB then 0x80
  else if a = 0x7FFC then 0x00
  else if a = 0x7FFD then 0x80
  else 0

def e1ROM : ROM := { romType := ROMType.loROM, data := e1Data }

def e1Analysis : Analysis := Analysis.ofROM e1ROM

/-- The E1 run; 64 units of fuel are more than this two-step walk needs. -/
def e1Result : Option Analysis := e1Analysis.run 64

/-! ## Theorems -/

/-- Folding `push_back` over a range is the padded buffer followed by the
mapped range. -/
theorem foldl_push_back {α : Type} (f : Nat → α) (l : List Nat) (init : List α) :
    l.foldl (fun buffer i => buffer ++ [f i]) init = init ++ l.map f := by
  induction l generalizing init with
  | nil => simp
  | cons head tail ih => simp [List.foldl_cons, ih, List.append_assoc]

/-- C10: `ROM::read(a, n)` returns the `n` zero elements of the pre-sized
buffer followed by the `n` requested bytes — a vector of length `2*n`, not
of the `n` requested bytes. -/
theorem read_returns_padded_buffer (rom : ROM) (address bytes : Nat) :
    rom.read address bytes =
      List.replicate bytes 0 ++
        (List.range bytes).map (fun i => rom.readByte (address + i)) ∧
    (rom.read address bytes).length = 2 * bytes := by
  have h := foldl_push_back (fun i => rom.readByte (address + i))
    (List.range bytes) (List.replicate bytes 0)
  refine ⟨h, ?_⟩
  rw [ROM.read, h]
  simp [List.length_append, List.length_replicate, List.length_map,
    List.length_range, Nat.two_mul]

/-- A ROM file every one of whose title bytes (for either candidate type)
is the non-printable, non-NUL byte `0x01`: both type scores are zero. -/
def malformedFile : ROMFile := { data := fun _ => 0x01, size := 0x10000 }

/-- C9 counterexample: with every candidate's title window disqualified
(both scores zero), `discoverType` does not abort — it silently returns
`LoROM`, because `hirom > lorom` fails at `0 > 0`. -/
theorem discoverType_malformed_cex :
    typeScore malformedFile ROMType.loROM = 0 ∧
    typeScore malformedFile ROMType.hiROM = 0 ∧
    discoverType malformedFile = ROMType.loROM := by
  refine ⟨?_, ?_, ?_⟩ <;> decide

/-- C9 amended: a malformed header (all candidate scores zero) on a ROM
above the small-ROM cutoff does not abort construction; `discoverType`
silently picks `LoROM`. -/
theorem discoverType_malformed_returns_lorom (file : ROMFile)
    (hsize : 0x8000 < file.size)
    (hlo : typeScore file ROMType.loROM = 0)
    (hhi : typeScore file ROMType.hiROM = 0) :
    discoverType file = ROMType.loROM := by
  rw [discoverType]
  simp only [hlo, hhi]
  have : ¬ file.size ≤ 0x8000 := by omega
  simp [this]

/-- Witness for the C9 amended theorem at the concrete malformed file. -/
theorem discoverType_malformed_returns_lorom_witness :
    0x8000 < malformedFile.size ∧
    typeScore malformedFile ROMType.loROM = 0 ∧
    typeScore malformedFile ROMType.hiROM = 0 ∧
    discoverType malformedFile = ROMType.loROM :=
  ⟨by decide, by decide, by decide,
    discoverType_malformed_returns_lorom malformedFile (by decide) (by decide)
      (by decide)⟩

/-- C6 counterexample: `StateChange::operator==` (and the hash input) never
consult the reason, so two unknown changes with different reasons and equal
deltas compare equal — and the deltas of an unknown change are *not*
ignored. -/
theorem stateChange_equality_cex :
    StateChange.beqCpp (StateChange.ofReason UnknownReason.IndirectJump)
      (StateChange.ofReason UnknownReason.StackManipulation) = true ∧
    (StateChange.ofReason UnknownReason.IndirectJump).hashInput =
      (StateChange.ofReason UnknownReason.StackManipulation).hashInput ∧
    StateChange.beqCpp
      { m := some true, unknownReason := UnknownReason.Unknown }
      { unknownReason := UnknownReason.Unknown } = false := by
  refine ⟨?_, ?_, ?_⟩ <;> decide

/-- C6 amended: equality and the hash input of `StateChange` are over the
`(m', x')` deltas alone, for known and unknown changes alike; the reason
never takes part. -/
theorem stateChange_equality_over_deltas (a b : StateChange) :
    (StateChange.beqCpp a b = true ↔ a.m = b.m ∧ a.x = b.x) ∧
    (a.hashInput = b.hashInput ↔ a.m = b.m ∧ a.x = b.x) := by
  constructor
  · simp [StateChange.beqCpp]
  · simp [StateChange.hashInput, Prod.ext_iff]

/-- C5: on every 24-bit address, `ROM::translate` is total and equals the
per-type formula the spec gives. -/
theorem translate_total_matches_formulas (t : ROMType) (a : Nat)
    (_ha : a < 0x1000000) : translate t a = translateSpec t a := by
  cases t with
  | loROM => rfl
  | hiROM => rfl
  | exLoROM =>
      have h := Nat.and_two_pow a 23
      have e : (2 : Nat) ^ 23 = 0x800000 := by norm_num
      rw [e] at h
      cases hb : a.testBit 23 with
      | false =>
          rw [hb] at h
          simp only [Bool.toNat_false, Nat.zero_mul] at h
          simp [translate, translateSpec, loROMFormula, hb, h]
      | true =>
          rw [hb] at h
          simp only [Bool.toNat_true, Nat.one_mul] at h
          simp [translate, translateSpec, loROMFormula, hb, h]
  | exHiROM => rfl
  | sdd1 => rfl

/-- Witness for C5 at a concrete ExLoROM address. -/
theorem translate_total_matches_formulas_witness :
    0x808123 < 0x1000000 ∧
    translate ROMType.exLoROM 0x808123 = translateSpec ROMType.exLoROM 0x808123 :=
  ⟨by decide, translate_total_matches_formulas ROMType.exLoROM 0x808123 (by decide)⟩

/-- The C2 conclusion: the joint effect of `CPU::sepRep` on the state and
the state change for an operand byte `arg`, and the elision property of
`applyInference`. -/
def SepRepEffect (state : State) (sc inference : StateChange) (arg : Nat) : Prop :=
  sepRepApply Op.SEP arg state sc inference =
    (⟨state.p ||| arg⟩,
      StateChange.applyInference
        { m := if arg.testBit 5 then some true else sc.m
          x := if arg.testBit 4 then some true else sc.x
          unknownReason := sc.unknownReason } inference) ∧
  sepRepApply Op.REP arg state sc inference =
    (⟨state.p &&& (0xFF ^^^ arg)⟩,
      StateChange.applyInference
        { m := if arg.testBit 5 then some false else sc.m
          x := if arg.testBit 4 then some false else sc.x
          unknownReason := sc.unknownReason } inference) ∧
  ∀ delta : StateChange,
    (delta.applyInference delta).m = none ∧ (delta.applyInference delta).x = none

/-- C2: `SEP arg` sets `p` to `p | arg` and turns each flag whose bit is in
`arg` into `Some(true)` (others untouched); `REP` resets `p` and uses
`Some(false)`; the result then goes through `applyInference`, and a delta
equal to the inference is cleared entirely. -/
theorem sepRep_stateChange_effect (state : State) (sc inference : StateChange)
    (arg : Nat) (h : arg < 0x100) : SepRepEffect state sc inference arg := by
  have harg : arg &&& 0xFF = arg := by
    have e : (0xFF : Nat) = 2 ^ 8 - 1 := by norm_num
    rw [e]
    exact Nat.and_pow_two_sub_one_of_lt_two_pow (by norm_num at h ⊢; omega)
  refine ⟨?_, ?_, ?_⟩
  · simp [sepRepApply, State.set, StateChange.set, State.m, State.x]
  · simp [sepRepApply, State.reset, StateChange.reset, State.m, State.x, harg]
  · intro delta
    cases hm : delta.m <;> cases hx : delta.x <;>
      simp [StateChange.applyInference, hm, hx]

/-- Witness for C2 at the operand byte `0x30` (both `m` and `x` bits). -/
theorem sepRep_stateChange_effect_witness :
    0x30 < 0x100 ∧ SepRepEffect State.initial {} {} 0x30 :=
  ⟨by decide, sepRep_stateChange_effect State.initial {} {} 0x30 (by decide)⟩

/-- The loop of `propagateSubroutineState`, characterized declaratively:
an early `Unknown` exit exactly when some callee has unknown deltas, and
otherwise the fold of the simplified sets decides the outcome. -/
theorem propagateLoop_characterization (state : State) (subs : Nat → Subroutine)
    (targets : List Nat) :
    ∀ acc : List StateChange,
      propagateLoop state subs targets acc =
        if targets.any (fun t => !(subs t).unknownStateChanges.isEmpty) then
          PropagateOutcome.raiseUnknown
        else
          match targets.foldl
              (fun s t => scSetMerge s ((subs t).simplifiedStateChanges state))
              acc with
          | [sc] => PropagateOutcome.applyChange sc
          | _ => PropagateOutcome.raiseMultipleReturnStates := by
  induction targets with
  | nil => intro acc; simp [propagateLoop]
  | cons t ts ih =>
      intro acc
      by_cases h : (subs t).unknownStateChanges.isEmpty
      · simp [propagateLoop, h, ih]
      · simp [propagateLoop, h]

/-- C1: `CPU::propagateSubroutineState` raises `Unknown` exactly when some
callee has an unknown state change; otherwise it collects the callees'
known state changes simplified against the caller state, applies the
single collected delta, and raises `MultipleReturnStates` for any other
cardinality. -/
theorem propagateSubroutineState_characterization (state : State)
    (subs : Nat → Subroutine) (targets : List Nat) :
    propagateSubroutineState state subs targets =
      if targets.any (fun t => !(subs t).unknownStateChanges.isEmpty) then
        PropagateOutcome.raiseUnknown
      else
        match targets.foldl
            (fun s t => scSetMerge s ((subs t).simplifiedStateChanges state))
            [] with
        | [sc] => PropagateOutcome.applyChange sc
        | _ => PropagateOutcome.raiseMultipleReturnStates :=
  propagateLoop_characterization state subs targets []

/-- C3 counterexample: after `Analysis::run` on the E1 self-loop ROM, the
discovered subroutine at `$8000` exists and has *no* state change at all —
`knownStateChanges` and `unknownStateChanges` are both empty, violating the
claimed invariant. -/
theorem run_e1_subroutine_without_state_change :
    (e1Result.bind (fun an => mapFind 0x8000 an.subroutines)).map
      (fun sub => (sub.knownStateChanges, sub.unknownStateChanges)) =
      some ([], []) := by
  decide

/-- C3 amended: a subroutine whose every walker stops by re-visiting an
already-inserted instruction records no state change whatsoever.  On the E1
ROM the completed run holds exactly one subroutine, at `$8000`, with one
instruction, both state-change maps empty, and the single reference
`($8000 → $8000, sub $8000)`. -/
theorem run_e1_amended_result :
    e1Result.map (fun an =>
      (an.subroutines.map
        (fun s =>
          (s.1, s.2.instructions.length, s.2.knownStateChanges,
            s.2.unknownStateChanges)),
        an.references, an.localLabels)) =
      some ([(0x8000, 1, [], [])], [(0x8000, [(0x8000, 0x8000)])], []) := by
  rfl

/-- An `LDA #imm` as first instruction of a subroutine. -/
def ldaInstr : Instruction :=
  { pc := 0x8000, subroutinePC := 0x8000, opcode := 0xA9, rawArgument := 0x1234,
    state := State.initial }

/-- A `PHP` as second instruction of the same subroutine. -/
def phpInstr : Instruction :=
  { pc := 0x8002, subroutinePC := 0x8000, opcode := 0x08, rawArgument := 0,
    state := State.initial }

/-- A subroutine whose incipit is `LDA #imm; PHP`. -/
def incipitSub : Subroutine :=
  (({ pc := 0x8000 } : Subroutine).addInstruction ldaInstr).addInstruction phpInstr

/-- C7 counterexample: `savesStateInIncipit` answers true for a subroutine
whose *first* opcode is `LDA`, not `PHP` — the scan skips instructions that
are neither `PHP` nor SEP/REP nor control flow. -/
theorem savesStateInIncipit_cex :
    incipitSub.savesStateInIncipit = true ∧
    incipitSub.instructions.map (fun p => p.2.operation) = [Op.LDA, Op.PHP] ∧
    Op.LDA ≠ Op.PHP := by
  refine ⟨?_, ?_, ?_⟩ <;> decide

/-- The incipit scan answers true exactly when a `PHP` occurs before any
SEP/REP or control-flow instruction, other instructions being skipped. -/
theorem incipitScan_takeWhile (l : List (Nat × Instruction)) :
    incipitScan l =
      (l.takeWhile (fun p => !(p.2.isSepRep || p.2.isControl))).any
        (fun p => p.2.operation == Op.PHP) := by
  induction l with
  | nil => rfl
  | cons hd tl ih =>
      obtain ⟨pc, i⟩ := hd
      by_cases hphp : i.operation = Op.PHP
      · have hsep : i.isSepRep = false := by
          simp [Instruction.isSepRep, Instruction.type, hphp]
        have hctl : i.isControl = false := by
          simp [Instruction.isControl, Instruction.type, hphp]
        simp [incipitScan, hphp, List.takeWhile, hsep, hctl]
      · by_cases hbar : (i.isSepRep || i.isControl) = true
        · simp [incipitScan, hphp, hbar, List.takeWhile]
        · simp only [Bool.or_eq_true, not_or, Bool.not_eq_true] at hbar
          simp [incipitScan, hphp, hbar.1, hbar.2, List.takeWhile, ih]

/-- C7 amended: `savesStateInIncipit` is true iff a `PHP` appears in the
PC-ordered instruction list before any SEP/REP or control-flow instruction
(instructions of other categories are skipped, so the `PHP` need not be
first). -/
theorem savesStateInIncipit_php_before_barrier (sub : Subroutine) :
    sub.savesStateInIncipit =
      (sub.instructions.takeWhile (fun p => !(p.2.isSepRep || p.2.isControl))).any
        (fun p => p.2.operation == Op.PHP) :=
  incipitScan_takeWhile sub.instructions

/-- The manipulation check fails (answers `false`) exactly when every
popped entry has a producing instruction of the expected call kind. -/
theorem checkReturnManipulation_false_iff (i : Instruction) (expected : Op)
    (hexp : i.operation = Op.RTS ∧ expected = Op.JSR ∨
      i.operation = Op.RTL ∧ expected = Op.JSL) :
    ∀ entries : List StackEntry,
      checkReturnManipulation i entries = false ↔
        entries.all (fun e =>
          match e.instruction with
          | some caller => caller.operation == expected
          | none => false) := by
  intro entries
  induction entries with
  | nil => simp [checkReturnManipulation]
  | cons e rest ih =>
      cases he : e.instruction with
      | none => simp [checkReturnManipulation, he]
      | some caller =>
          rcases hexp with ⟨hop, hexpd⟩ | ⟨hop, hexpd⟩
          · subst hexpd
            by_cases hc : caller.operation = Op.JSR
            · simp [checkReturnManipulation, he, hop, hc, ih]
            · simp [checkReturnManipulation, he, hop, hc]
          · subst hexpd
            by_cases hc : caller.operation = Op.JSL
            · simp [checkReturnManipulation, he, hop, hc, ih]
            · simp [checkReturnManipulation, he, hop, hc]

/-- The C4 conclusion: `RTI` is always a standard return; `RTS`/`RTL` pop 2
or 3 entries and return normally exactly when every popped entry was
produced by the matching call, raising `StackManipulation` otherwise. -/
def RetBehavior (cpu : CPU) (an : Analysis) (i : Instruction) : Prop :=
  (i.operation = Op.RTI →
    cpu.ret an i =
      ({ cpu with stop := true },
        recordStateChange an cpu.subroutinePC i.pc cpu.stateChange)) ∧
  ∀ expected retSize,
    (i.operation = Op.RTS ∧ expected = Op.JSR ∧ retSize = 2 ∨
      i.operation = Op.RTL ∧ expected = Op.JSL ∧ retSize = 3) →
    if (cpu.stack.pop retSize).1.all (fun e =>
        match e.instruction with
        | some caller => caller.operation == expected
        | none => false) then
      cpu.ret an i =
        ({ cpu with stack := (cpu.stack.pop retSize).2, stop := true },
          recordStateChange an cpu.subroutinePC i.pc cpu.stateChange)
    else
      cpu.ret an i =
        ({ cpu with stack := (cpu.stack.pop retSize).2, stop := true },
          recordStateChange an cpu.subroutinePC i.pc
            (StateChange.ofReason UnknownReason.StackManipulation))

/-- C4: with no assertions in play, `CPU::ret` performs a standard return
for `RTI` unconditionally, and for `RTS`/`RTL` exactly when the 2 or 3
popped entries all have the matching producing call; otherwise it raises
`StackManipulation`. -/
theorem ret_standard_or_stack_manipulation (cpu : CPU) (an : Analysis)
    (i : Instruction) (hassert : an.assertions = []) :
    RetBehavior cpu an i := by
  have hget : ∀ pc spc, an.getAssertion pc spc = none := by
    intro pc spc
    simp [Analysis.getAssertion, hassert, mapFind]
  constructor
  · intro hop
    simp [CPU.ret, hop, CPU.standardRet]
  · intro expected retSize hexp
    have hiff :=
      checkReturnManipulation_false_iff i expected
        (by rcases hexp with ⟨h1, h2, _⟩ | ⟨h1, h2, _⟩
            · exact Or.inl ⟨h1, h2⟩
            · exact Or.inr ⟨h1, h2⟩)
        ((cpu.stack.pop retSize).1)
    rcases hexp with ⟨hop, hexpd, hsz⟩ | ⟨hop, hexpd, hsz⟩ <;> subst hexpd hsz
    · by_cases hall : (cpu.stack.pop 2).1.all (fun e =>
          match e.instruction with
          | some caller => caller.operation == Op.JSR
          | none => false) = true
      · rw [if_pos hall]
        have hfalse := hiff.mpr hall
        simp [CPU.ret, hop, hfalse, CPU.standardRet]
      · rw [if_neg hall]
        have htrue : checkReturnManipulation i (cpu.stack.pop 2).1 = true := by
          rcases Bool.eq_false_or_eq_true
            (checkReturnManipulation i (cpu.stack.pop 2).1) with h | h
          · exact h
          · exact absurd (hiff.mp h) hall
        simp [CPU.ret, hop, htrue, CPU.unknownStateChange, hget]
    · by_cases hall : (cpu.stack.pop 3).1.all (fun e =>
          match e.instruction with
          | some caller => caller.operation == Op.JSL
          | none => false) = true
      · rw [if_pos hall]
        have hfalse := hiff.mpr hall
        simp [CPU.ret, hop, hfalse, CPU.standardRet]
      · rw [if_neg hall]
        have htrue : checkReturnManipulation i (cpu.stack.pop 3).1 = true := by
          rcases Bool.eq_false_or_eq_true
            (checkReturnManipulation i (cpu.stack.pop 3).1) with h | h
          · exact h
          · exact absurd (hiff.mp h) hall
        simp [CPU.ret, hop, htrue, CPU.unknownStateChange, hget]

/-- The `JSR` that produced the return address for the C4 witness. -/
def jsrInstr : Instruction :=
  { pc := 0x9000, subroutinePC := 0x9000, opcode := 0x20, rawArgument := 0x8000,
    state := State.initial }

/-- An `RTS` instruction for the C4 witness. -/
def rtsInstr : Instruction :=
  { pc := 0x8005, subroutinePC := 0x8000, opcode := 0x60, rawArgument := 0,
    state := State.initial }

/-- An analysis with a zeroed ROM and no assertions, for the C4 witness. -/
def retAn : Analysis := { rom := { romType := ROMType.loROM, data := fun _ => 0 } }

/-- A walker about to execute the witness `RTS`, with the `JSR`-pushed
return address on its stack. -/
def retCpu : CPU :=
  { pc := 0x8006, subroutinePC := 0x8000, state := State.initial,
    stack := Stack.pushValue {} 2 (some 0x9000) (some jsrInstr) }

/-- Witness for C4 at a concrete `RTS` over a clean `JSR` return address. -/
theorem ret_standard_or_stack_manipulation_witness :
    retAn.assertions = [] ∧ RetBehavior retCpu retAn rtsInstr :=
  ⟨rfl, ret_standard_or_stack_manipulation retCpu retAn rtsInstr rfl⟩

/-- The entry `Stack::pushValue` stores for loop variable `i`. -/
def pushedEntry (instr : Option Instruction) (data : Option Nat) (i : Nat) :
    StackEntry :=
  ⟨instr,
    match data with
    | some d => StackData.byteData ((d >>> (i * 8)) &&& 0xFF)
    | none => StackData.unknownData⟩

theorem pushLoop_cons (instr : Option Instruction) (data : Option Nat)
    (i : Nat) (rest : List Nat) (s : Stack) :
    Stack.pushLoop instr data (i :: rest) s =
      Stack.pushLoop instr data rest (s.writeTop (pushedEntry instr data i)) := rfl

/-- Popping `n + 1` entries is popping `n` and then one more at the back. -/
theorem pop_succ_back (n : Nat) :
    ∀ s : Stack,
      s.pop (n + 1) =
        ((s.pop n).1 ++ [((s.pop n).2.popOne).1], ((s.pop n).2.popOne).2) := by
  induction n with
  | zero => intro s; simp [Stack.pop]
  | succ n ih =>
      intro s
      show (let (entry, s1) := s.popOne
            let (entries, s2) := s1.pop (n + 1)
            (entry :: entries, s2)) = _
      rw [Stack.pop]
      simp only [ih s.popOne.2]
      simp [Stack.pop]

/-- The pointer after `j` 16-bit decrements. -/
def decIterate : Nat → Nat → Nat
  | 0, p => p
  | j + 1, p => decIterate j (decPointer p)

theorem decIterate_eq (k : Nat) :
    ∀ p : Nat, p < 65536 → k ≤ 65536 →
      decIterate k p = (p + 65536 - k) % 65536 := by
  induction k with
  | zero =>
      intro p hp _
      show p = (p + 65536 - 0) % 65536
      omega
  | succ k ih =>
      intro p hp hk
      have hdec : decPointer p < 65536 := Nat.mod_lt _ (by norm_num)
      show decIterate k (decPointer p) = _
      rw [ih (decPointer p) hdec (by omega)]
      show ((p + 65535) % 65536 + 65536 - k) % 65536 = (p + 65536 - (k + 1)) % 65536
      omega

/-- `pushLoop` leaves every address it does not write to untouched; the
written addresses are the iterated decrements of the starting pointer. -/
theorem pushLoop_mem_frame (instr : Option Instruction) (data : Option Nat) :
    ∀ (is : List Nat) (mem : Nat → StackEntry) (q a : Nat),
      (∀ j, j < is.length → a ≠ decIterate j q) →
      (Stack.pushLoop instr data is ⟨mem, q⟩).mem a = mem a := by
  intro is
  induction is with
  | nil => intro mem q a _; rfl
  | cons i rest ih =>
      intro mem q a h
      have h0 : a ≠ q := by
        have := h 0 (by simp)
        simpa [decIterate] using this
      have hrest : ∀ j, j < rest.length → a ≠ decIterate j (decPointer q) := by
        intro j hj
        have := h (j + 1) (by simpa using Nat.succ_lt_succ hj)
        simpa [decIterate] using this
      rw [pushLoop_cons]
      show (Stack.pushLoop instr data rest
        ⟨fun b => if b = q then pushedEntry instr data i else mem b,
          decPointer q⟩).mem a = mem a
      rw [ih _ _ _ hrest]
      simp [h0]

/-- Push-then-pop over an arbitrary loop-variable list: popping as many
entries as were pushed returns them in reverse push order and restores the
pointer. -/
theorem pushLoop_pop_roundtrip (instr : Option Instruction) (data : Option Nat) :
    ∀ (is : List Nat) (mem : Nat → StackEntry) (ptr : Nat),
      ptr < 65536 → is.length ≤ 65536 →
      (Stack.pop (Stack.pushLoop instr data is ⟨mem, ptr⟩) is.length).1 =
          is.reverse.map (pushedEntry instr data) ∧
      (Stack.pop (Stack.pushLoop instr data is ⟨mem, ptr⟩) is.length).2.pointer =
          ptr := by
  intro is
  induction is with
  | nil => intro mem ptr hptr _; exact ⟨rfl, rfl⟩
  | cons i rest ih =>
      intro mem ptr hptr hlen
      have hdec : decPointer ptr < 65536 := Nat.mod_lt _ (by norm_num)
      have hrestlen : rest.length ≤ 65535 := by
        simp only [List.length_cons] at hlen; omega
      have IH := ih (fun b => if b = ptr then pushedEntry instr data i else mem b)
        (decPointer ptr) hdec (by omega)
      rw [pushLoop_cons]
      have hstack : Stack.writeTop ⟨mem, ptr⟩ (pushedEntry instr data i) =
          ⟨fun b => if b = ptr then pushedEntry instr data i else mem b,
            decPointer ptr⟩ := rfl
      rw [hstack]
      set st := Stack.pushLoop instr data rest
        ⟨fun b => if b = ptr then pushedEntry instr data i else mem b,
          decPointer ptr⟩ with hst
      have hlencons : (i :: rest).length = rest.length + 1 := by simp
      rw [hlencons, pop_succ_back]
      have hmemtop : st.mem ptr = pushedEntry instr data i := by
        rw [hst]
        rw [pushLoop_mem_frame instr data rest _ (decPointer ptr) ptr ?_]
        · simp
        · intro j hj
          rw [decIterate_eq j (decPointer ptr) hdec (by omega)]
          unfold decPointer
          omega
      have hpopptr : (Stack.pop st rest.length).2.pointer = decPointer ptr := IH.2
      have hpopmem : (Stack.pop st rest.length).2.mem = st.mem := by
        clear hmemtop hpopptr IH
        generalize st = s
        clear hst
        induction rest.length generalizing s with
        | zero => rfl
        | succ n ihn =>
            show (Stack.pop s.popOne.2 n).2.mem = s.mem
            rw [ihn]
            rfl
      constructor
      · rw [IH.1]
        have : ((Stack.pop st rest.length).2.popOne).1 = pushedEntry instr data i := by
          show (Stack.pop st rest.length).2.mem
            (incPointer (Stack.pop st rest.length).2.pointer) = _
          rw [hpopmem, hpopptr]
          have hincdec : incPointer (decPointer ptr) = ptr := by
            unfold incPointer decPointer
            omega
          rw [hincdec, hmemtop]
        rw [this]
        simp
      · show ((Stack.pop st rest.length).2.popOne).2.pointer = ptr
        show incPointer (Stack.pop st rest.length).2.pointer = ptr
        rw [hpopptr]
        unfold incPointer decPointer
        omega

/-- The C8 conclusion: pushing the `n` bytes of `data` and popping `n`
yields exactly those bytes, least-significant first, with the pointer
restored. -/
def StackRoundTrip (mem : Nat → StackEntry) (ptr data : Nat)
    (instr : Option Instruction) (n : Nat) : Prop :=
  (Stack.pop (Stack.pushValue ⟨mem, ptr⟩ n (some data) instr) n).1 =
      (List.range n).map (fun k =>
        ⟨instr, StackData.byteData ((data >>> (k * 8)) &&& 0xFF)⟩) ∧
  (Stack.pop (Stack.pushValue ⟨mem, ptr⟩ n (some data) instr) n).2.pointer = ptr

/-- C8: for every starting stack contents and 16-bit pointer, pushing an
`n`-byte value (bytes written high-to-low) and popping `n` returns those
bytes in reverse push order — least-significant byte first — and restores
the stack pointer.  (`n` is bounded by the 16-bit pointer space; the code
pushes at most 3.) -/
theorem stack_push_pop_roundtrip (mem : Nat → StackEntry) (ptr data : Nat)
    (instr : Option Instruction) (n : Nat) (hptr : ptr < 0x10000)
    (hn : n ≤ 0x10000) : StackRoundTrip mem ptr data instr n := by
  have h := pushLoop_pop_roundtrip instr (some data) (List.range n).reverse mem ptr
    hptr (by simpa using hn)
  rw [List.length_reverse, List.length_range, List.reverse_reverse] at h
  constructor
  · rw [Stack.pushValue, h.1]
    simp [pushedEntry]
  · rw [Stack.pushValue, h.2]

/-- Witness for C8: three bytes of `0x123456` pushed onto an empty stack at
the initial pointer come back as `0x56, 0x34, 0x12`. -/
theorem stack_push_pop_roundtrip_witness :
    0x100 < 0x10000 ∧ 3 ≤ 0x10000 ∧
      StackRoundTrip (fun _ => {}) 0x100 0x123456 none 3 :=
  ⟨by decide, by decide,
    stack_push_pop_roundtrip (fun _ => {}) 0x100 0x123456 none 3 (by decide)
      (by decide)⟩

end Gilgamesh
